import Mathlib

/-!
# HabitPulse — shallow embedding of the habit store and reminder engine

This file embeds the logic of `src/app/layout.tsx` (the `HomePage` client
component): the habit data model, `createHabit`, `uniqueHistory`,
`hasCompletedToday`, `completeHabit`, `resetHabit`, `handleAddHabit`, the
load-and-normalize effect, and the reminder interval effect.

## Modelling conventions

* Wall-clock instants are modelled as a local calendar-day index (`Int`)
  plus milliseconds since local midnight (`Nat`).  A fixed UTC offset and
  no DST are assumed, so `date-fns` primitives become:
  `startOfDay t = ⟨t.day, 0⟩`, `isSameDay a b ↔ a.day = b.day`,
  `differenceInCalendarDays a b = a.day - b.day`, and
  `format(t, "yyyy-MM-dd")` is injectively represented by `t.day` itself.
* A JavaScript `Date` built from a stored string is either valid or the
  `Invalid Date` value; stored timestamps are therefore `Option Instant`,
  with `none` standing for a string whose parse gives `Invalid Date`.
  `date-fns`'s `format` throws a `RangeError` on `Invalid Date`; throwing
  is modelled with `Except Unit`.
* A reminder-time string is abstracted to the result of
  `split(":").map(Number)`: `none` for `null` (or falsy) `reminderTime`,
  `some none` when an hour or minute is `NaN`, `some (some (hr, mi))`
  otherwise.  `target.setHours(hr, mi, 0, 0)` followed by
  `now.getTime() - target.getTime()` reduces, under the fixed-offset
  model, to `now.ms - (hr * 3600000 + mi * 60000)`.
* `crypto.randomUUID()` and `new Date()` are effects; their results are
  passed to the model as explicit arguments.
-/

/-- A wall-clock instant: local calendar-day index and milliseconds since
local midnight of that day. -/
structure Instant where
  day : Int
  ms : Nat
  deriving DecidableEq, Repr

/-- Result of parsing a reminder-time string with
`split(":").map(Number)`: `none` when an hour or minute is `NaN`. -/
abbrev ClockTime := Option (Int × Int)

/-- The `Habit` record of `layout.tsx` (in-memory form: history entries are
valid dates, as produced by `uniqueHistory` / `completeHabit`). -/
structure Habit where
  id : String
  name : String
  reminderTime : Option ClockTime
  createdAt : Instant
  history : List Instant
  streak : Int
  longestStreak : Int
  lastCompleted : Option Instant
  reminderLastNotified : Option Int
  deriving DecidableEq, Repr

/-- `new Date(`${key}T00:00:00`)`: local midnight of a day key. -/
def midnight (d : Int) : Instant := ⟨d, 0⟩

/-- `format(startOfDay t, "yyyy-MM-dd")`: the local day key of an instant. -/
def dayKey (t : Instant) : Int := t.day

/-- The `seen`-set filter inside `uniqueHistory`: keep the first occurrence
of each key, scanning left to right. -/
def dedupSeen (seen : List Int) : List Int → List Int
  | [] => []
  | k :: rest =>
    if k ∈ seen then dedupSeen seen rest
    else k :: dedupSeen (k :: seen) rest

/-- `uniqueHistory` on a history of valid dates: map each entry to its day
key, drop repeated keys keeping first occurrences, and map each surviving
key back to local midnight. -/
def uniqueHistory (history : List Instant) : List Instant :=
  (dedupSeen [] (history.map dayKey)).map midnight

/-- `format` applied to `startOfDay(new Date(iso))`: throws (`Except.error`)
when the stored string parsed to `Invalid Date`. -/
def formatDayKey : Option Instant → Except Unit Int
  | some t => Except.ok t.day
  | none => Except.error ()

/-- JavaScript `Array.prototype.map` with a possibly-throwing callback:
left to right, aborting at the first exception. -/
def mapExcept (f : α → Except Unit β) : List α → Except Unit (List β)
  | [] => Except.ok []
  | a :: rest =>
    match f a with
    | Except.error e => Except.error e
    | Except.ok b =>
      match mapExcept f rest with
      | Except.error e => Except.error e
      | Except.ok bs => Except.ok (b :: bs)

/-- `uniqueHistory` as run by the load effect, where history entries come
from storage and may be invalid: `.map(format ∘ startOfDay ∘ Date)` throws
at the first invalid entry, before the dedup filter runs. -/
def uniqueHistoryStored (history : List (Option Instant)) :
    Except Unit (List Instant) :=
  match mapExcept formatDayKey history with
  | Except.error e => Except.error e
  | Except.ok keys => Except.ok ((dedupSeen [] keys).map midnight)

/-- `name.trim()`: strip leading and trailing whitespace (structurally
recursive model of `String.trim`). -/
def trimName (s : String) : String :=
  ⟨((s.data.dropWhile Char.isWhitespace).reverse.dropWhile
      Char.isWhitespace).reverse⟩

/-- `hasCompletedToday`: some history entry falls on today's local day. -/
def hasCompletedToday (today : Int) (habit : Habit) : Bool :=
  habit.history.any (fun t => t.day == today)

/-- `createHabit(name, reminderTime)`; the fresh `crypto.randomUUID()` and
`new Date()` are passed in as `id` and `now`. -/
def createHabit (id : String) (now : Instant) (name : String)
    (reminderTime : Option ClockTime) : Habit :=
  { id := id
    name := trimName name
    reminderTime := reminderTime
    createdAt := now
    history := []
    streak := 0
    longestStreak := 0
    lastCompleted := none
    reminderLastNotified := none }

/-- `handleAddHabit`: no-op on a name that trims to empty, otherwise
prepend the freshly created habit. -/
def handleAddHabit (id : String) (now : Instant) (name : String)
    (time : Option ClockTime) (current : List Habit) : List Habit :=
  if trimName name = "" then current
  else createHabit id now name time :: current

/-- The body of the `current.map` inside `completeHabit`, applied to one
habit; `today` is the day of `startOfDay(new Date())` and `⟨today, 0⟩` is
`todayIso`. -/
def completeOne (today : Int) (habitId : String) (habit : Habit) : Habit :=
  if habit.id ≠ habitId then habit
  else if habit.history.any (fun t => t.day == today) then habit
  else
    let todayMid : Instant := midnight today
    let newHistory := uniqueHistory (habit.history ++ [todayMid])
    let continuing :=
      match habit.lastCompleted with
      | some lc => today - (dayKey lc) == 1
      | none => false
    let streak := if continuing then habit.streak + 1 else 1
    let longest := max streak habit.longestStreak
    { habit with
        history := newHistory
        streak := streak
        longestStreak := longest
        lastCompleted := some todayMid }

/-- `completeHabit(habitId)` over the whole store. -/
def completeHabit (today : Int) (habitId : String)
    (habits : List Habit) : List Habit :=
  habits.map (completeOne today habitId)

/-- The body of the `current.map` inside `resetHabit`, applied to one
habit. -/
def resetOne (habitId : String) (habit : Habit) : Habit :=
  if habit.id = habitId then
    { habit with
        history := []
        streak := 0
        longestStreak := 0
        lastCompleted := none
        reminderLastNotified := none }
  else habit

/-- `resetHabit(habitId)` over the whole store. -/
def resetHabit (habitId : String) (habits : List Habit) : List Habit :=
  habits.map (resetOne habitId)

/-- `now.getTime() - target.getTime()` where `target` is a copy of `now`
with `setHours(hr, mi, 0, 0)` applied. -/
def elapsedSinceTarget (now : Instant) (hr mi : Int) : Int :=
  (now.ms : Int) - (hr * 3600000 + mi * 60000)

/-- The qualification test of the reminder interval effect: reminder time
present and parsed, elapsed time within the `[0, 60000]` window, not
already notified today, not already completed today. -/
def reminderQualifies (now : Instant) (habit : Habit) : Bool :=
  match habit.reminderTime with
  | none => false
  | some none => false
  | some (some (hr, mi)) =>
    decide (0 ≤ elapsedSinceTarget now hr mi
      ∧ elapsedSinceTarget now hr mi ≤ 60000
      ∧ habit.reminderLastNotified ≠ some now.day
      ∧ hasCompletedToday now.day habit = false)

/-- One habit's treatment in the tick's `setHabits` pass: a qualifying
habit gets its fired marker set to today's key, any other habit is
returned unchanged. -/
def tickHabit (now : Instant) (habit : Habit) : Habit :=
  if reminderQualifies now habit then
    { habit with reminderLastNotified := some now.day }
  else habit

/-- The store after one reminder tick. -/
def reminderTickHabits (now : Instant) (habits : List Habit) : List Habit :=
  habits.map (tickHabit now)

/-- The `triggered` array built during the tick's pass: the qualifying
habits, in iteration order, as they were before the marker update. -/
def triggeredHabits (now : Instant) (habits : List Habit) : List Habit :=
  habits.filter (fun h => reminderQualifies now h)

/-- The toast emitted by a tick: `Time for "<name>"` of `triggered[0]`,
or nothing when no habit qualifies. -/
def tickToast (now : Instant) (habits : List Habit) : Option String :=
  match triggeredHabits now habits with
  | [] => none
  | h :: _ => some ("Time for \"" ++ h.name ++ "\"")

/-- The native notification emitted by a tick: mirrors the toast but is
suppressed unless notification permission is granted. -/
def tickNative (granted : Bool) (now : Instant)
    (habits : List Habit) : Option String :=
  if granted then tickToast now habits else none

/-- A stored habit as deserialized by the load effect, before history
normalization: history entries may be invalid (`none`) and the array
itself may be missing (`habit.history ?? []`). -/
structure StoredHabit where
  id : String
  name : String
  reminderTime : Option ClockTime
  createdAt : Instant
  history : Option (List (Option Instant))
  streak : Int
  longestStreak : Int
  lastCompleted : Option Instant
  reminderLastNotified : Option Int
  deriving DecidableEq, Repr

/-- The per-habit body of the load effect's `parsed.map`:
`{...habit, history: uniqueHistory(habit.history ?? [])}`, propagating the
exception `format` throws on an invalid timestamp. -/
def normalizeHabit (h : StoredHabit) : Except Unit Habit :=
  match uniqueHistoryStored (h.history.getD []) with
  | Except.error e => Except.error e
  | Except.ok hist =>
    Except.ok
      { id := h.id
        name := h.name
        reminderTime := h.reminderTime
        createdAt := h.createdAt
        history := hist
        streak := h.streak
        longestStreak := h.longestStreak
        lastCompleted := h.lastCompleted
        reminderLastNotified := h.reminderLastNotified }

/-- The load effect: normalize every stored habit and install the result;
any exception is caught by the surrounding `try`/`catch`, in which case
`setHabits` is never called and the store keeps its initial `[]`. -/
def loadHabits (stored : List StoredHabit) : List Habit :=
  match mapExcept normalizeHabit stored with
  | Except.ok hs => hs
  | Except.error _ => []

/-- One same-day mutation of a single habit's state: a reminder tick at a
given millisecond offset within day `d`, or a user `Complete`. -/
inductive DayOp where
  | tick (ms : Nat)
  | complete
  deriving DecidableEq, Repr

/-- Apply one same-day operation to a habit. -/
def applyDayOp (d : Int) (habitId : String) (habit : Habit) : DayOp → Habit
  | DayOp.tick ms => tickHabit ⟨d, ms⟩ habit
  | DayOp.complete => completeOne d habitId habit

/-- Number of operations in a same-day trace at which the habit qualifies
(and hence fires) its reminder. -/
def firesCount (d : Int) (habitId : String) (habit : Habit) :
    List DayOp → Nat
  | [] => 0
  | op :: rest =>
    (match op with
     | DayOp.tick ms => if reminderQualifies ⟨d, ms⟩ habit then 1 else 0
     | DayOp.complete => 0)
      + firesCount d habitId (applyDayOp d habitId habit op) rest

/-- A habit with reminder time `09:00`, as created fresh. -/
def sampleReminderHabit : Habit :=
  createHabit "a" ⟨0, 0⟩ "run" (some (some (9, 0)))

/-- A habit in a generic dirty state, used to instantiate theorems at a
concrete input. -/
def sampleHabit : Habit :=
  { id := "a", name := "run", reminderTime := some (some (9, 0)),
    createdAt := ⟨0, 0⟩, history := [⟨0, 0⟩], streak := 1, longestStreak := 2,
    lastCompleted := some ⟨0, 0⟩, reminderLastNotified := some 0 }

/-- A stored habit whose history holds an invalid timestamp (`none`) next
to a valid one. -/
def invalidStored : StoredHabit :=
  { id := "a", name := "run", reminderTime := none, createdAt := ⟨0, 0⟩,
    history := some [none, some ⟨0, 28800000⟩], streak := 0,
    longestStreak := 0, lastCompleted := none, reminderLastNotified := none }

/-- A stored habit whose history holds two valid timestamps on the same
local day. -/
def validStored : StoredHabit :=
  { id := "b", name := "read", reminderTime := none, createdAt := ⟨0, 0⟩,
    history := some [some ⟨0, 28800000⟩, some ⟨0, 82800000⟩], streak := 0,
    longestStreak := 0, lastCompleted := none, reminderLastNotified := none }

/-! ## Helper lemmas on the dedup filter and exception-propagating map -/

lemma mem_of_mem_dedupSeen {k : Int} :
    ∀ (l seen : List Int), k ∈ dedupSeen seen l → k ∈ l
  | [], _, h => by simp [dedupSeen] at h
  | a :: rest, seen, h => by
    by_cases ha : a ∈ seen
    · simp only [dedupSeen, if_pos ha] at h
      exact List.mem_cons_of_mem _ (mem_of_mem_dedupSeen rest seen h)
    · simp only [dedupSeen, if_neg ha] at h
      rcases List.mem_cons.mp h with h' | h'
      · simp [h']
      · exact List.mem_cons_of_mem _ (mem_of_mem_dedupSeen rest (a :: seen) h')

lemma mem_dedupSeen_of_mem {k : Int} :
    ∀ (l seen : List Int), k ∈ l → k ∉ seen → k ∈ dedupSeen seen l
  | [], _, h, _ => absurd h (List.not_mem_nil k)
  | a :: rest, seen, h, hns => by
    by_cases ha : a ∈ seen
    · simp only [dedupSeen, if_pos ha]
      rcases List.mem_cons.mp h with rfl | h'
      · exact absurd ha hns
      · exact mem_dedupSeen_of_mem rest seen h' hns
    · simp only [dedupSeen, if_neg ha]
      by_cases hk : k = a
      · exact hk ▸ List.mem_cons_self _ _
      · rcases List.mem_cons.mp h with rfl | h'
        · exact absurd rfl hk
        · refine List.mem_cons_of_mem _
            (mem_dedupSeen_of_mem rest (a :: seen) h' ?_)
          intro hc
          rcases List.mem_cons.mp hc with rfl | hc'
          · exact hk rfl
          · exact hns hc'

lemma not_mem_seen_of_mem_dedupSeen {k : Int} :
    ∀ (l seen : List Int), k ∈ dedupSeen seen l → k ∉ seen
  | [], _, h => by simp [dedupSeen] at h
  | a :: rest, seen, h => by
    by_cases ha : a ∈ seen
    · simp only [dedupSeen, if_pos ha] at h
      exact not_mem_seen_of_mem_dedupSeen rest seen h
    · simp only [dedupSeen, if_neg ha] at h
      rcases List.mem_cons.mp h with rfl | h'
      · exact ha
      · intro hc
        exact not_mem_seen_of_mem_dedupSeen rest (a :: seen) h'
          (List.mem_cons_of_mem _ hc)

lemma dedupSeen_nodup : ∀ (l seen : List Int), (dedupSeen seen l).Nodup
  | [], _ => by simp [dedupSeen]
  | a :: rest, seen => by
    by_cases ha : a ∈ seen
    · simpa only [dedupSeen, if_pos ha] using dedupSeen_nodup rest seen
    · simp only [dedupSeen, if_neg ha, List.nodup_cons]
      refine ⟨fun hc => ?_, dedupSeen_nodup rest (a :: seen)⟩
      exact not_mem_seen_of_mem_dedupSeen rest (a :: seen) hc
        (List.mem_cons_self _ _)

lemma dedupSeen_length_le : ∀ (l seen : List Int),
    (dedupSeen seen l).length ≤ l.length
  | [], _ => by simp [dedupSeen]
  | a :: rest, seen => by
    by_cases ha : a ∈ seen
    · simp only [dedupSeen, if_pos ha, List.length_cons]
      exact Nat.le_succ_of_le (dedupSeen_length_le rest seen)
    · simp only [dedupSeen, if_neg ha, List.length_cons]
      exact Nat.succ_le_succ (dedupSeen_length_le rest (a :: seen))

lemma mapExcept_map_some (vals : List Instant) :
    mapExcept formatDayKey (vals.map some) = Except.ok (vals.map dayKey) := by
  induction vals with
  | nil => simp [mapExcept]
  | cons a rest ih => simp [mapExcept, formatDayKey, ih, dayKey]

lemma mapExcept_error {α β : Type} {f : α → Except Unit β} {a : α} :
    ∀ {l : List α}, a ∈ l → f a = Except.error () →
      mapExcept f l = Except.error ()
  | [], h, _ => absurd h (List.not_mem_nil a)
  | b :: rest, h, he => by
    rcases List.mem_cons.mp h with rfl | h'
    · simp [mapExcept, he]
    · cases hfb : f b with
      | error e => simp [mapExcept, hfb]
      | ok v => simp [mapExcept, hfb, mapExcept_error h' he]

lemma mapExcept_ok_of_all {α β : Type} {f : α → Except Unit β} :
    ∀ {l : List α}, (∀ a ∈ l, ∃ b, f a = Except.ok b) →
      ∃ bs, mapExcept f l = Except.ok bs
  | [], _ => ⟨[], rfl⟩
  | b :: rest, hall => by
    obtain ⟨v, hv⟩ := hall b (List.mem_cons_self _ _)
    obtain ⟨bs, hbs⟩ :=
      mapExcept_ok_of_all (fun a ha => hall a (List.mem_cons_of_mem _ ha))
        (l := rest)
    exact ⟨v :: bs, by simp [mapExcept, hv, hbs]⟩

/-! ## Helper lemmas on uniqueHistory -/

lemma uniqueHistory_keys (l : List Instant) :
    (uniqueHistory l).map dayKey = dedupSeen [] (l.map dayKey) := by
  simp only [uniqueHistory, List.map_map]
  have hcomp : dayKey ∘ midnight = id := funext fun d => rfl
  simp [hcomp]

lemma mem_uniqueHistory {t : Instant} {l : List Instant}
    (h : t ∈ uniqueHistory l) : t.ms = 0 ∧ t.day ∈ l.map dayKey := by
  simp only [uniqueHistory, List.mem_map] at h
  obtain ⟨d, hd, rfl⟩ := h
  exact ⟨rfl, mem_of_mem_dedupSeen _ _ hd⟩

lemma uniqueHistory_covers {s : Instant} {l : List Instant} (h : s ∈ l) :
    midnight s.day ∈ uniqueHistory l := by
  have hk : dayKey s ∈ l.map dayKey := List.mem_map_of_mem _ h
  have hm := mem_dedupSeen_of_mem (l.map dayKey) [] hk (List.not_mem_nil _)
  exact List.mem_map_of_mem _ hm

lemma uniqueHistory_nodup_keys (l : List Instant) :
    ((uniqueHistory l).map dayKey).Nodup := by
  rw [uniqueHistory_keys]
  exact dedupSeen_nodup _ _

lemma uniqueHistory_length_le (l : List Instant) :
    (uniqueHistory l).length ≤ l.length := by
  simpa [uniqueHistory] using dedupSeen_length_le (l.map dayKey) []

/-! ## Helper lemmas on the store operations -/

lemma completeOne_reminderLastNotified (today : Int) (habitId : String)
    (h : Habit) :
    (completeOne today habitId h).reminderLastNotified
      = h.reminderLastNotified := by
  unfold completeOne
  split
  · rfl
  · split
    · rfl
    · rfl

lemma reminderQualifies_of_notified {d : Int} {ms : Nat} {h : Habit}
    (hn : h.reminderLastNotified = some d) :
    reminderQualifies ⟨d, ms⟩ h = false := by
  cases hrt : h.reminderTime with
  | none => simp [reminderQualifies, hrt]
  | some ct =>
    cases ct with
    | none => simp [reminderQualifies, hrt]
    | some p =>
      obtain ⟨hr, mi⟩ := p
      simp only [reminderQualifies, hrt]
      apply decide_eq_false
      intro hp
      exact hp.2.2.1 hn

lemma applyDayOp_marker {d : Int} {habitId : String} {h : Habit}
    (hn : h.reminderLastNotified = some d) (op : DayOp) :
    (applyDayOp d habitId h op).reminderLastNotified = some d := by
  cases op with
  | tick ms =>
    simp only [applyDayOp, tickHabit, reminderQualifies_of_notified hn,
      Bool.false_eq_true, if_false]
    exact hn
  | complete =>
    simpa [applyDayOp, completeOne_reminderLastNotified] using hn

lemma firesCount_eq_zero {d : Int} {habitId : String} :
    ∀ (ops : List DayOp) (h : Habit),
      h.reminderLastNotified = some d → firesCount d habitId h ops = 0
  | [], _, _ => rfl
  | op :: rest, h, hn => by
    cases op with
    | tick ms =>
      simp only [firesCount, reminderQualifies_of_notified hn,
        Bool.false_eq_true, if_false, Nat.zero_add]
      exact firesCount_eq_zero rest _ (applyDayOp_marker hn (DayOp.tick ms))
    | complete =>
      simp only [firesCount, Nat.zero_add]
      exact firesCount_eq_zero rest _ (applyDayOp_marker hn DayOp.complete)

lemma firesCount_le_one (d : Int) (habitId : String) :
    ∀ (ops : List DayOp) (h : Habit), firesCount d habitId h ops ≤ 1
  | [], _ => Nat.zero_le 1
  | op :: rest, h => by
    cases op with
    | tick ms =>
      by_cases hq : reminderQualifies ⟨d, ms⟩ h = true
      · have hm : (applyDayOp d habitId h (DayOp.tick ms)).reminderLastNotified
            = some d := by
          simp [applyDayOp, tickHabit, hq]
        simp [firesCount, hq, firesCount_eq_zero rest _ hm]
      · have hq' : reminderQualifies ⟨d, ms⟩ h = false :=
          Bool.eq_false_iff.mpr hq
        simp only [firesCount, hq', Bool.false_eq_true, if_false,
          Nat.zero_add]
        exact firesCount_le_one d habitId rest _
    | complete =>
      simp only [firesCount, Nat.zero_add]
      exact firesCount_le_one d habitId rest _

/-! ## Claim theorems -/

/-- C7: `resetHabit` keeps the store's size and keeps the targeted habit
present, while setting its history to `[]`, streak and longest streak to
`0`, and last-completed and last-reminder-fired to `none`; the record
update leaves `id`, `name`, `reminderTime` and `createdAt` untouched. -/
theorem resetHabit_clears_target (habitId : String) (habits : List Habit)
    (h : Habit) (hid : h.id = habitId) :
    (resetHabit habitId habits).length = habits.length
    ∧ resetOne habitId h =
        { h with
            history := []
            streak := 0
            longestStreak := 0
            lastCompleted := none
            reminderLastNotified := none }
    ∧ (h ∈ habits → resetOne habitId h ∈ resetHabit habitId habits) := by
  refine ⟨by simp [resetHabit], by simp [resetOne, hid], fun hm => ?_⟩
  simp only [resetHabit]
  exact List.mem_map_of_mem _ hm

/-- Witness for C7 at a concrete dirty habit. -/
theorem resetHabit_clears_target_witness :
    (resetHabit "a" [sampleHabit]).length = 1
    ∧ resetOne "a" sampleHabit =
        { sampleHabit with
            history := []
            streak := 0
            longestStreak := 0
            lastCompleted := none
            reminderLastNotified := none }
    ∧ (sampleHabit ∈ [sampleHabit] →
        resetOne "a" sampleHabit ∈ resetHabit "a" [sampleHabit]) :=
  resetHabit_clears_target "a" [sampleHabit] sampleHabit rfl

/-- C8: adding a habit with a name that trims to empty is a no-op;
otherwise exactly one habit is prepended, carrying the supplied fresh
identifier, the trimmed name, empty history, zero streaks and absent
last-completed and last-reminder-fired markers. -/
theorem handleAddHabit_spec (id : String) (now : Instant) (nm : String)
    (time : Option ClockTime) (current : List Habit) :
    (trimName nm = "" → handleAddHabit id now nm time current = current)
    ∧ (trimName nm ≠ "" →
        handleAddHabit id now nm time current
          = createHabit id now nm time :: current)
    ∧ (createHabit id now nm time).id = id
    ∧ (createHabit id now nm time).name = trimName nm
    ∧ (createHabit id now nm time).history = []
    ∧ (createHabit id now nm time).streak = 0
    ∧ (createHabit id now nm time).longestStreak = 0
    ∧ (createHabit id now nm time).lastCompleted = none
    ∧ (createHabit id now nm time).reminderLastNotified = none := by
  exact ⟨fun he => by simp [handleAddHabit, he],
    fun hne => by simp [handleAddHabit, hne],
    rfl, rfl, rfl, rfl, rfl, rfl, rfl⟩

/-- Witness for C8: a whitespace-only name is rejected, a padded name is
prepended trimmed. -/
theorem handleAddHabit_spec_witness :
    handleAddHabit "x" ⟨0, 0⟩ " 	 " none [sampleHabit] = [sampleHabit]
    ∧ handleAddHabit "x" ⟨0, 0⟩ " run " none []
        = [createHabit "x" ⟨0, 0⟩ " run " none] :=
  ⟨(handleAddHabit_spec "x" ⟨0, 0⟩ " 	 " none [sampleHabit]).1 (by decide),
   (handleAddHabit_spec "x" ⟨0, 0⟩ " run " none []).2.1 (by decide)⟩

/-- C9: `Complete` and `Reset` leave habits whose id differs from the
target unchanged, and a reminder tick changes no field of any habit other
than `reminderLastNotified`. -/
theorem ops_frame (today : Int) (habitId : String) (h : Habit)
    (hne : h.id ≠ habitId) :
    completeOne today habitId h = h
    ∧ resetOne habitId h = h
    ∧ (∀ (now : Instant) (g : Habit),
        (tickHabit now g).id = g.id
        ∧ (tickHabit now g).name = g.name
        ∧ (tickHabit now g).reminderTime = g.reminderTime
        ∧ (tickHabit now g).createdAt = g.createdAt
        ∧ (tickHabit now g).history = g.history
        ∧ (tickHabit now g).streak = g.streak
        ∧ (tickHabit now g).longestStreak = g.longestStreak
        ∧ (tickHabit now g).lastCompleted = g.lastCompleted) := by
  refine ⟨by simp [completeOne, hne], by simp [resetOne, hne], ?_⟩
  intro now g
  unfold tickHabit
  split <;> simp

/-- Witness for C9 at a concrete habit and a non-matching id. -/
theorem ops_frame_witness :
    completeOne 0 "zzz" sampleHabit = sampleHabit
    ∧ resetOne "zzz" sampleHabit = sampleHabit :=
  ⟨(ops_frame 0 "zzz" sampleHabit (by decide)).1,
   (ops_frame 0 "zzz" sampleHabit (by decide)).2.1⟩

/-- C1: a Complete that is not a same-day no-op sets the streak to the
previous streak plus one exactly when the previous last-completed day is
one calendar day before today, and to exactly 1 otherwise (including with
no previous completion); completions on days 0, 1, 2 give streak 3, while
completions on days 0 and 2 give streak 1. -/
theorem complete_streak_rule (today : Int) (habitId : String) (h : Habit)
    (hid : h.id = habitId) (hnc : hasCompletedToday today h = false) :
    ((completeOne today habitId h).streak =
      match h.lastCompleted with
      | some lc => if today - lc.day = 1 then h.streak + 1 else 1
      | none => 1)
    ∧ (completeOne 2 "a" (completeOne 1 "a" (completeOne 0 "a"
        (createHabit "a" ⟨0, 0⟩ "run" none)))).streak = 3
    ∧ (completeOne 2 "a" (completeOne 0 "a"
        (createHabit "a" ⟨0, 0⟩ "run" none))).streak = 1 := by
  refine ⟨?_, by decide, by decide⟩
  have h1 : ¬ (h.id ≠ habitId) := by simp [hid]
  have h2 : ¬ (h.history.any (fun t => t.day == today) = true) := by
    simp only [hasCompletedToday] at hnc
    simp [hnc]
  unfold completeOne
  rw [if_neg h1, if_neg h2]
  cases hlc : h.lastCompleted with
  | none => simp [hlc]
  | some lc =>
    by_cases hd : today - lc.day = 1
    · simp [hlc, dayKey, hd]
    · simp [hlc, dayKey, hd]

/-- Witness for C1 at a concrete habit: completing on day 5 after a
day-0 last completion resets the streak to 1. -/
theorem complete_streak_rule_witness :
    (completeOne 5 "a" sampleHabit).streak =
      match sampleHabit.lastCompleted with
      | some lc => if (5 : Int) - lc.day = 1 then sampleHabit.streak + 1 else 1
      | none => 1 :=
  (complete_streak_rule 5 "a" sampleHabit rfl (by decide)).1

/-- C2: Complete is idempotent per calendar day — a habit already
completed today is left entirely unchanged, a second Complete on the same
day is the identity, and two Completes on one day grow the history by at
most one entry. -/
theorem completeHabit_idempotent (today : Int) (habitId : String)
    (h : Habit) (hc : hasCompletedToday today h = true) :
    completeOne today habitId h = h
    ∧ (∀ g : Habit,
        completeOne today habitId (completeOne today habitId g)
          = completeOne today habitId g)
    ∧ (∀ g : Habit,
        (completeOne today habitId
          (completeOne today habitId g)).history.length
          ≤ g.history.length + 1) := by
  have hnoop : ∀ g : Habit, hasCompletedToday today g = true →
      completeOne today habitId g = g := by
    intro g hg
    unfold completeOne
    split
    · rfl
    · rw [if_pos
        (show (g.history.any fun t => t.day == today) = true from hg)]
  have hidem : ∀ g : Habit,
      completeOne today habitId (completeOne today habitId g)
        = completeOne today habitId g := by
    intro g
    by_cases hgid : g.id ≠ habitId
    · have hg : completeOne today habitId g = g := by
        unfold completeOne
        rw [if_pos hgid]
      rw [hg, hg]
    · by_cases hgc : g.history.any (fun t => t.day == today) = true
      · have hg : completeOne today habitId g = g := hnoop g hgc
        rw [hg, hg]
      · apply hnoop
        have hact : (completeOne today habitId g).history
            = uniqueHistory (g.history ++ [midnight today]) := by
          unfold completeOne
          rw [if_neg hgid, if_neg hgc]
        unfold hasCompletedToday
        rw [hact]
        have hin : midnight today ∈ g.history ++ [midnight today] := by simp
        have hmem : midnight today
            ∈ uniqueHistory (g.history ++ [midnight today]) :=
          uniqueHistory_covers hin
        rw [List.any_eq_true]
        exact ⟨midnight today, hmem, by simp [midnight]⟩
  have hlen : ∀ g : Habit,
      (completeOne today habitId g).history.length
        ≤ g.history.length + 1 := by
    intro g
    by_cases hgid : g.id ≠ habitId
    · have hg : completeOne today habitId g = g := by
        unfold completeOne
        rw [if_pos hgid]
      rw [hg]
      exact Nat.le_succ _
    · by_cases hgc : g.history.any (fun t => t.day == today) = true
      · rw [hnoop g hgc]
        exact Nat.le_succ _
      · have hact : (completeOne today habitId g).history
            = uniqueHistory (g.history ++ [midnight today]) := by
          unfold completeOne
          rw [if_neg hgid, if_neg hgc]
        rw [hact]
        calc (uniqueHistory (g.history ++ [midnight today])).length
            ≤ (g.history ++ [midnight today]).length :=
              uniqueHistory_length_le _
          _ = g.history.length + 1 := by simp
  exact ⟨hnoop h hc, hidem, fun g => by rw [hidem g]; exact hlen g⟩

/-- Witness for C2 at a concrete habit already completed today. -/
theorem completeHabit_idempotent_witness :
    completeOne 0 "a" sampleHabit = sampleHabit
    ∧ completeOne 0 "a" (completeOne 0 "a" sampleReminderHabit)
        = completeOne 0 "a" sampleReminderHabit :=
  ⟨(completeHabit_idempotent 0 "a" sampleHabit (by decide)).1,
   (completeHabit_idempotent 0 "a" sampleHabit (by decide)).2.1
     sampleReminderHabit⟩

/-- C6: a freshly created habit has streak 0 and longestStreak 0;
Complete sets longestStreak to the maximum of the new streak and the old
longestStreak and Reset zeroes both; and, assuming `longestStreak ≥
streak` beforehand, every operation (create, complete, reset, tick)
preserves it. -/
theorem longestStreak_invariant (today : Int) (habitId : String)
    (h : Habit) (now : Instant) (id : String) (created : Instant)
    (nm : String) (tm : Option ClockTime)
    (hinv : h.streak ≤ h.longestStreak) :
    (createHabit id created nm tm).streak = 0
    ∧ (createHabit id created nm tm).longestStreak = 0
    ∧ (completeOne today habitId h).streak
        ≤ (completeOne today habitId h).longestStreak
    ∧ (h.id = habitId → hasCompletedToday today h = false →
        (completeOne today habitId h).longestStreak
          = max (completeOne today habitId h).streak h.longestStreak)
    ∧ (h.id = habitId → (resetOne habitId h).streak = 0
        ∧ (resetOne habitId h).longestStreak = 0)
    ∧ (resetOne habitId h).streak ≤ (resetOne habitId h).longestStreak
    ∧ (tickHabit now h).streak ≤ (tickHabit now h).longestStreak := by
  refine ⟨rfl, rfl, ?_, ?_, ?_, ?_, ?_⟩
  · unfold completeOne
    split
    · exact hinv
    · split
      · exact hinv
      · simp
  · intro hid hnc
    have h1 : ¬ (h.id ≠ habitId) := by simp [hid]
    have h2 : ¬ (h.history.any (fun t => t.day == today) = true) := by
      simp only [hasCompletedToday] at hnc
      simp [hnc]
    unfold completeOne
    rw [if_neg h1, if_neg h2]
  · intro hid
    constructor
    · simp [resetOne, hid]
    · simp [resetOne, hid]
  · unfold resetOne
    split
    · simp
    · exact hinv
  · unfold tickHabit
    split
    · exact hinv
    · exact hinv

/-- Witness for C6 at a concrete habit satisfying the invariant. -/
theorem longestStreak_invariant_witness :
    (completeOne 5 "a" sampleHabit).streak
        ≤ (completeOne 5 "a" sampleHabit).longestStreak
    ∧ (completeOne 5 "a" sampleHabit).longestStreak
        = max (completeOne 5 "a" sampleHabit).streak
            sampleHabit.longestStreak
    ∧ (resetOne "a" sampleHabit).streak = 0 :=
  ⟨(longestStreak_invariant 5 "a" sampleHabit ⟨0, 0⟩ "x" ⟨0, 0⟩ "n" none
      (by decide)).2.2.1,
   (longestStreak_invariant 5 "a" sampleHabit ⟨0, 0⟩ "x" ⟨0, 0⟩ "n" none
      (by decide)).2.2.2.1 rfl (by decide),
   ((longestStreak_invariant 5 "a" sampleHabit ⟨0, 0⟩ "x" ⟨0, 0⟩ "n" none
      (by decide)).2.2.2.2.1 rfl).1⟩

/-- C3: a habit qualifies on a tick exactly when its reminder time parses,
the elapsed time since today's target instant is within `[0, 60000]`
milliseconds, its fired marker is not today's key and it has no completion
today; along any same-day trace of ticks and Completes it fires at most
once; and for reminder time 09:00 a tick at 09:00:30 triggers, a later
same-day tick does not re-trigger, and the next day's window triggers
again. -/
theorem reminder_once_per_day (now : Instant) (h : Habit) (d : Int)
    (habitId : String) (g : Habit) (ops : List DayOp) :
    (reminderQualifies now h = true ↔
      ∃ hr mi, h.reminderTime = some (some (hr, mi))
        ∧ 0 ≤ elapsedSinceTarget now hr mi
        ∧ elapsedSinceTarget now hr mi ≤ 60000
        ∧ h.reminderLastNotified ≠ some now.day
        ∧ hasCompletedToday now.day h = false)
    ∧ firesCount d habitId g ops ≤ 1
    ∧ reminderQualifies ⟨0, 32430000⟩ sampleReminderHabit = true
    ∧ reminderQualifies ⟨0, 32445000⟩
        (tickHabit ⟨0, 32430000⟩ sampleReminderHabit) = false
    ∧ reminderQualifies ⟨1, 32430000⟩
        (tickHabit ⟨0, 32430000⟩ sampleReminderHabit) = true := by
  refine ⟨?_, firesCount_le_one d habitId ops g, by decide, by decide,
    by decide⟩
  cases hrt : h.reminderTime with
  | none => simp [reminderQualifies, hrt]
  | some ct =>
    cases ct with
    | none => simp [reminderQualifies, hrt]
    | some p =>
      obtain ⟨hr, mi⟩ := p
      constructor
      · intro hq
        have hp := of_decide_eq_true
          (show decide (0 ≤ elapsedSinceTarget now hr mi
              ∧ elapsedSinceTarget now hr mi ≤ 60000
              ∧ h.reminderLastNotified ≠ some now.day
              ∧ hasCompletedToday now.day h = false) = true from by
            simpa [reminderQualifies, hrt] using hq)
        exact ⟨hr, mi, rfl, hp.1, hp.2.1, hp.2.2.1, hp.2.2.2⟩
      · rintro ⟨hr', mi', heq, h1, h2, h3, h4⟩
        have hpair : hr = hr' ∧ mi = mi' := by
          simpa using heq
        obtain ⟨rfl, rfl⟩ := hpair
        simp only [reminderQualifies, hrt]
        exact decide_eq_true ⟨h1, h2, h3, h4⟩

/-- C4: on a tick, every qualifying habit gets its fired marker set to
today's key, yet only one toast (mirrored by the native notification only
when permission is granted) is emitted, naming the first qualifying habit
in iteration order; when no habit qualifies nothing is emitted and the
store is unchanged. -/
theorem reminder_tick_notification (now : Instant) (habits : List Habit)
    (granted : Bool) :
    (∀ h ∈ habits, reminderQualifies now h = true →
        tickHabit now h ∈ reminderTickHabits now habits
        ∧ (tickHabit now h).reminderLastNotified = some now.day)
    ∧ (∀ hd tl, triggeredHabits now habits = hd :: tl →
        tickToast now habits = some ("Time for \"" ++ hd.name ++ "\"")
        ∧ tickNative true now habits = tickToast now habits
        ∧ tickNative false now habits = none)
    ∧ (triggeredHabits now habits = [] →
        tickToast now habits = none
        ∧ tickNative granted now habits = none
        ∧ reminderTickHabits now habits = habits) := by
  refine ⟨?_, ?_, ?_⟩
  · intro h hm hq
    refine ⟨List.mem_map_of_mem _ hm, ?_⟩
    simp [tickHabit, hq]
  · intro hd tl htr
    exact ⟨by simp [tickToast, htr], rfl, rfl⟩
  · intro htr
    have hnone : tickToast now habits = none := by simp [tickToast, htr]
    refine ⟨hnone, by cases granted <;> simp [tickNative, hnone], ?_⟩
    have hall : ∀ h ∈ habits, tickHabit now h = h := by
      intro h hm
      by_cases hq : reminderQualifies now h = true
      · exfalso
        have hmem : h ∈ triggeredHabits now habits :=
          List.mem_filter.mpr ⟨hm, by simpa using hq⟩
        rw [htr] at hmem
        exact absurd hmem (List.not_mem_nil _)
      · simp [tickHabit, Bool.eq_false_iff.mpr hq]
    calc reminderTickHabits now habits
        = habits.map id := List.map_congr_left hall
      _ = habits := List.map_id habits

/-- Witness for C4: at 09:00:30 the 09:00 habit fires and is marked; a
store with no qualifying habit is unchanged. -/
theorem reminder_tick_notification_witness :
    (tickHabit ⟨0, 32430000⟩ sampleReminderHabit).reminderLastNotified
        = some 0
    ∧ tickToast ⟨0, 32430000⟩ [sampleReminderHabit]
        = some "Time for \"run\""
    ∧ reminderTickHabits ⟨0, 32430000⟩ [sampleHabit] = [sampleHabit] := by
  refine ⟨((reminder_tick_notification ⟨0, 32430000⟩ [sampleReminderHabit]
      true).1 sampleReminderHabit (by decide) (by decide)).2, ?_, ?_⟩
  · exact ((reminder_tick_notification ⟨0, 32430000⟩ [sampleReminderHabit]
      true).2.1 sampleReminderHabit [] (by decide)).1
  · exact ((reminder_tick_notification ⟨0, 32430000⟩ [sampleHabit]
      true).2.2 (by decide)).2.2

/-! ## Load-effect lemmas for C5 -/

lemma normalizeHabit_isOk {s : StoredHabit}
    (hs : ∀ e ∈ s.history.getD [], e ≠ (none : Option Instant)) :
    ∃ b, normalizeHabit s = Except.ok b := by
  obtain ⟨ks, hks⟩ := mapExcept_ok_of_all (f := formatDayKey)
    (l := s.history.getD [])
    (fun e he => by
      cases e with
      | none => exact absurd rfl (hs none he)
      | some t => exact ⟨t.day, rfl⟩)
  refine ⟨{ id := s.id
            name := s.name
            reminderTime := s.reminderTime
            createdAt := s.createdAt
            history := (dedupSeen [] ks).map midnight
            streak := s.streak
            longestStreak := s.longestStreak
            lastCompleted := s.lastCompleted
            reminderLastNotified := s.reminderLastNotified }, ?_⟩
  unfold normalizeHabit uniqueHistoryStored
  rw [hks]

lemma normalizeHabit_isError {s : StoredHabit}
    (hs : (none : Option Instant) ∈ s.history.getD []) :
    normalizeHabit s = Except.error () := by
  have hme : mapExcept formatDayKey (s.history.getD []) = Except.error () :=
    mapExcept_error hs rfl
  unfold normalizeHabit uniqueHistoryStored
  rw [hme]

/-- C5 counterexample: a stored habit whose history is
`[Invalid Date, 2024-day-0 08:00]` is not kept with the invalid entry
discarded — the load effect's `format` throws, the `catch` swallows it,
and the whole store falls back to empty. -/
theorem loadHabits_invalid_counterexample :
    loadHabits [invalidStored] = []
    ∧ invalidStored.history = some [none, some ⟨0, 28800000⟩] :=
  ⟨by decide, rfl⟩

/-- C5 (amended): when every stored timestamp is valid, the load keeps
every habit and collapses same-local-day timestamps to one local-midnight
entry (day keys become duplicate-free, every surviving entry is a
midnight of a day present in the input, and every input day survives);
but one invalid timestamp anywhere makes the whole load fall back to the
empty store instead of discarding just that entry. -/
theorem loadHabits_normalization (stored : List StoredHabit)
    (vals : List Instant) (sh : StoredHabit) :
    ((∀ s ∈ stored, ∀ e ∈ s.history.getD [], e ≠ (none : Option Instant)) →
      ∃ hs, mapExcept normalizeHabit stored = Except.ok hs
        ∧ loadHabits stored = hs)
    ∧ uniqueHistoryStored (vals.map some) = Except.ok (uniqueHistory vals)
    ∧ ((uniqueHistory vals).map dayKey).Nodup
    ∧ (∀ t ∈ uniqueHistory vals, t.ms = 0 ∧ t.day ∈ vals.map dayKey)
    ∧ (∀ s ∈ vals, midnight s.day ∈ uniqueHistory vals)
    ∧ (sh ∈ stored → (none : Option Instant) ∈ sh.history.getD [] →
        loadHabits stored = []) := by
  refine ⟨?_, ?_, uniqueHistory_nodup_keys vals,
    fun t ht => mem_uniqueHistory ht, fun s hsv => uniqueHistory_covers hsv,
    ?_⟩
  · intro hvalid
    obtain ⟨hs, hok⟩ := mapExcept_ok_of_all
      (fun s hsm => normalizeHabit_isOk (hvalid s hsm))
    refine ⟨hs, hok, ?_⟩
    unfold loadHabits
    rw [hok]
  · unfold uniqueHistoryStored
    rw [mapExcept_map_some]
    rfl
  · intro hmem hinv
    have herr : mapExcept normalizeHabit stored = Except.error () :=
      mapExcept_error hmem (normalizeHabit_isError hinv)
    unfold loadHabits
    rw [herr]

/-- Witness for C5: an all-valid store loads successfully; one invalid
timestamp drops even the valid habits. -/
theorem loadHabits_normalization_witness :
    (∃ hs, mapExcept normalizeHabit [validStored] = Except.ok hs
        ∧ loadHabits [validStored] = hs)
    ∧ loadHabits [validStored, invalidStored] = [] :=
  ⟨(loadHabits_normalization [validStored] [] invalidStored).1 (by decide),
   (loadHabits_normalization [validStored, invalidStored] []
      invalidStored).2.2.2.2.2 (by decide) (by decide)⟩

/-- C10: because Reset clears the fired marker, one habit can notify
twice in one day: the 09:00 reminder fires at 09:00:10, and after a Reset
a tick at 09:00:50 — still inside the 60-second window, with no
completion that day — fires again; without the Reset the second tick
stays silent. -/
theorem reset_reenables_reminder :
    tickToast ⟨0, 32410000⟩ [sampleReminderHabit] = some "Time for \"run\""
    ∧ tickToast ⟨0, 32450000⟩
        (reminderTickHabits ⟨0, 32410000⟩ [sampleReminderHabit]) = none
    ∧ tickToast ⟨0, 32450000⟩
        (resetHabit "a"
          (reminderTickHabits ⟨0, 32410000⟩ [sampleReminderHabit]))
      = some "Time for \"run\"" :=
  ⟨by decide, by decide, by decide⟩
